import Mathlib

/-!
Shallow embedding of `src/wormhole.py` (a pygame "wormhole" visualizer) and
proofs about it.  Python floats are modelled by real numbers, `math.sin`/
`math.cos` by `Real.sin`/`Real.cos`, Python's float `%` by `pymod`, and
Python's `int(...)` truncation by `trunc`.  The mutable `WormholeVisualizer`
object becomes an explicit state record threaded through the per-layer draw
procedure; pygame draw commands become an inductive `DrawCall` type, and each
emitted call is tagged with the index of the layer that produced it (the
"recording test harness" view of the renderer).
-/

namespace Wormhole

noncomputable section

/-- Window side length in pixels (`WINDOW_SIZE = 400`). -/
def WINDOW_SIZE : ℕ := 400

/-- Number of concentric layers (`NUM_LAYERS = 30`). -/
def NUM_LAYERS : ℕ := 30

/-- Maximum layer radius (`MAX_RADIUS = 300`). -/
def MAX_RADIUS : ℝ := 300

/-- Degrees to radians, `math.radians(d) = d * pi / 180`. -/
def radians (d : ℝ) : ℝ := d * Real.pi / 180

/-- Python `int(x)` for a float: truncation toward zero. -/
def trunc (x : ℝ) : ℤ := if 0 ≤ x then ⌊x⌋ else ⌈x⌉

/-- Python float `x % y`: `x - y * floor (x / y)` (sign follows `y`). -/
def pymod (x y : ℝ) : ℝ := x - y * ⌊x / y⌋

/-- The shape kinds of `self.shapes = ["circle", "square", "triangle",
"hexagon", "octagon", "star"]`. -/
inductive ShapeType where
  | circle
  | square
  | triangle
  | hexagon
  | octagon
  | star
deriving DecidableEq

/-- The `self.shapes` list, in source order. -/
def shapes : List ShapeType :=
  [ShapeType.circle, ShapeType.square, ShapeType.triangle,
   ShapeType.hexagon, ShapeType.octagon, ShapeType.star]

/-- Mutable state of the `WormholeVisualizer` object.  The Python 30-element
list `self.layer_rotations` is modelled as a total function `ℕ → ℝ` (the
program only ever indexes it with a layer index `< NUM_LAYERS`). -/
structure VisState where
  current_shape : ℕ
  base_hue : ℝ
  time_offset : ℝ
  mouse_x : ℤ
  mouse_y : ℤ
  layer_rotations : ℕ → ℝ

/-- Initial state built by `WormholeVisualizer.__init__`. -/
def init_state : VisState :=
  { current_shape := 0
    base_hue := 0.5
    time_offset := 0
    mouse_x := (WINDOW_SIZE / 2 : ℕ)
    mouse_y := (WINDOW_SIZE / 2 : ℕ)
    layer_rotations := fun _ => 0 }

/-- Per-layer rotation speeds, `self.layer_speeds = [i * 0.5 for i in
range(NUM_LAYERS)]`. -/
def layer_speeds : List ℝ := (List.range NUM_LAYERS).map (fun (i : ℕ) => (i : ℝ) * 0.5)

/-- Local (unrotated, origin-centered) corner list of `get_shape_points`,
one branch per shape kind; `none` for the circle kind, which is drawn with
the circle primitive instead. -/
def local_corners (shape : ShapeType) (radius : ℝ) : Option (List (ℝ × ℝ)) :=
  match shape with
  | ShapeType.circle => none
  | ShapeType.square =>
      some [(-(radius * 0.7), -(radius * 0.7)), (radius * 0.7, -(radius * 0.7)),
            (radius * 0.7, radius * 0.7), (-(radius * 0.7), radius * 0.7)]
  | ShapeType.triangle =>
      some (([0, 120, 240] : List ℝ).map (fun angle =>
        (radius * Real.cos (radians angle), radius * Real.sin (radians angle))))
  | ShapeType.hexagon =>
      some ((List.range 6).map (fun (i : ℕ) =>
        (radius * Real.cos (radians ((i : ℝ) * 60)),
         radius * Real.sin (radians ((i : ℝ) * 60)))))
  | ShapeType.octagon =>
      some ((List.range 8).map (fun (i : ℕ) =>
        (radius * Real.cos (radians ((i : ℝ) * 45)),
         radius * Real.sin (radians ((i : ℝ) * 45)))))
  | ShapeType.star =>
      some ((List.range 10).map (fun (i : ℕ) =>
        let r := if i % 2 = 0 then radius else radius * 0.5
        (r * Real.cos (radians ((i : ℝ) * 36)),
         r * Real.sin (radians ((i : ℝ) * 36)))))

/-- `WormholeVisualizer.get_shape_points`: build the local corners, rotate
each by `rotation` degrees, translate to `(center_x, center_y)`. -/
def get_shape_points (shape : ShapeType) (center_x center_y radius rotation : ℝ) :
    Option (List (ℝ × ℝ)) :=
  (local_corners shape radius).map (fun corners =>
    corners.map (fun c =>
      (center_x + (c.1 * Real.cos (radians rotation) - c.2 * Real.sin (radians rotation)),
       center_y + (c.1 * Real.sin (radians rotation) + c.2 * Real.cos (radians rotation)))))

/-- `colorsys.hsv_to_rgb` from the Python standard library, as called by
`draw_wormhole_layer`. -/
def hsv_to_rgb (h s v : ℝ) : ℝ × ℝ × ℝ :=
  if s = 0 then (v, v, v)
  else
    let i : ℤ := trunc (h * 6)
    let f : ℝ := h * 6 - i
    let p := v * (1 - s)
    let q := v * (1 - s * f)
    let t := v * (1 - s * (1 - f))
    let i2 := i % 6
    if i2 = 0 then (v, t, p)
    else if i2 = 1 then (q, v, p)
    else if i2 = 2 then (p, v, t)
    else if i2 = 3 then (p, q, v)
    else if i2 = 4 then (t, p, v)
    else (v, p, q)

/-- The pulsing layer radius computed at the top of `draw_wormhole_layer`:
`progress = i / NUM_LAYERS`, `base_radius = MAX_RADIUS * (1 - progress)`,
`pulse = sin(time_offset * 3 + i * 0.5) * 0.2`,
`radius = base_radius * (1 + pulse)`. -/
def layer_radius (st : VisState) (layer_index : ℕ) : ℝ :=
  let progress : ℝ := (layer_index : ℝ) / NUM_LAYERS
  let base_radius := MAX_RADIUS * (1 - progress)
  let pulse := Real.sin (st.time_offset * 3 + (layer_index : ℝ) * 0.5) * 0.2
  base_radius * (1 + pulse)

/-- The per-layer hue of `draw_wormhole_layer`:
`hue_shift = progress * 0.3 + time_offset * 0.1`;
`current_hue = (base_hue + hue_shift) % 1.0`. -/
def hue_at (base_hue time_offset progress : ℝ) : ℝ :=
  let hue_shift := progress * 0.3 + time_offset * 0.1
  pymod (base_hue + hue_shift) 1

/-- A recorded draw command issued to the pygame surface. -/
inductive DrawCall where
  | circle (center : ℤ × ℤ) (radius : ℤ) (color : ℤ × ℤ × ℤ) (width : ℕ)
  | polygon (points : List (ℝ × ℝ)) (color : ℤ × ℤ × ℤ) (width : ℕ)

/-- `WormholeVisualizer.draw_wormhole_layer`: returns the updated state and
the list of draw calls emitted for this layer, each tagged with the layer
index.  If `radius < 2` the layer is skipped: no draw call, no state
change. -/
def draw_wormhole_layer (st : VisState) (layer_index : ℕ) :
    VisState × List (ℕ × DrawCall) :=
  if layer_radius st layer_index < 2 then (st, [])
  else
    let progress : ℝ := (layer_index : ℝ) / NUM_LAYERS
    let radius := layer_radius st layer_index
    let center_offset_x := ((st.mouse_x : ℝ) - ((WINDOW_SIZE / 2 : ℕ) : ℝ)) * progress * 0.3
    let center_offset_y := ((st.mouse_y : ℝ) - ((WINDOW_SIZE / 2 : ℕ) : ℝ)) * progress * 0.3
    let center_x := ((WINDOW_SIZE / 2 : ℕ) : ℝ) + center_offset_x
    let center_y := ((WINDOW_SIZE / 2 : ℕ) : ℝ) + center_offset_y
    let current_hue := hue_at st.base_hue st.time_offset progress
    let brightness := 0.7 + 0.3 * Real.sin (st.time_offset * 2 + (layer_index : ℝ) * 0.3)
    let rgb := hsv_to_rgb current_hue 1 brightness
    let color : ℤ × ℤ × ℤ :=
      (trunc (rgb.1 * 255), trunc (rgb.2.1 * 255), trunc (rgb.2.2 * 255))
    let st2 : VisState :=
      { st with layer_rotations := fun k =>
          if k = layer_index then
            st.layer_rotations layer_index + layer_speeds.getD layer_index 0
          else st.layer_rotations k }
    let calls : List (ℕ × DrawCall) :=
      match shapes.getD st.current_shape ShapeType.circle with
      | ShapeType.circle =>
          [(layer_index, DrawCall.circle (trunc center_x, trunc center_y) (trunc radius) color 2)]
      | s =>
          match get_shape_points s center_x center_y radius (st2.layer_rotations layer_index) with
          | none => []
          | some points =>
              if 2 < points.length then [(layer_index, DrawCall.polygon points color 2)] else []
    (st2, calls)

/-- The layer loop body of `WormholeVisualizer.run`: draw the layers in the
given index order, threading the state and concatenating the recorded draw
calls. -/
def draw_layers (st : VisState) : List ℕ → VisState × List (ℕ × DrawCall)
  | [] => (st, [])
  | j :: rest =>
      let r := draw_wormhole_layer st j
      let r2 := draw_layers r.1 rest
      (r2.1, r.2 ++ r2.2)

/-- The index order of the layer loop in `run`:
`range(NUM_LAYERS - 1, -1, -1)`, i.e. `[29, 28, ..., 0]`. -/
def frame_layer_order : List ℕ := (List.range NUM_LAYERS).reverse

/-- One rendered frame of `run` (after event handling): advance
`time_offset` by `0.02`, then draw all layers back to front. -/
def step_frame (st : VisState) : VisState × List (ℕ × DrawCall) :=
  let st1 := { st with time_offset := st.time_offset + 0.02 }
  draw_layers st1 frame_layer_order

/-- The discrete input events consumed by `handle_events`. -/
inductive InputEvent where
  | quit
  | key_space
  | key_r
  | key_g
  | key_b
  | key_other
  | mouse_motion (x y : ℤ)

/-- Effect of a single (non-quit) event in `WormholeVisualizer.handle_events`. -/
def apply_event (st : VisState) (e : InputEvent) : VisState :=
  match e with
  | InputEvent.quit => st
  | InputEvent.key_space =>
      { st with current_shape := (st.current_shape + 1) % shapes.length }
  | InputEvent.key_r => { st with base_hue := 0.0 }
  | InputEvent.key_g => { st with base_hue := 0.33 }
  | InputEvent.key_b => { st with base_hue := 0.66 }
  | InputEvent.key_other => st
  | InputEvent.mouse_motion x y => { st with mouse_x := x, mouse_y := y }

/-- `WormholeVisualizer.handle_events` over the drained event list: returns
`false` (stop running) as soon as a quit event is seen, else applies each
event in order. -/
def handle_events (st : VisState) : List InputEvent → Bool × VisState
  | [] => (true, st)
  | InputEvent.quit :: _ => (false, st)
  | e :: rest => handle_events (apply_event st e) rest

/-! ## Basic lemmas -/

theorem layer_speeds_getD (i : ℕ) (hi : i < NUM_LAYERS) :
    layer_speeds.getD i 0 = (i : ℝ) * 0.5 := by
  have hlen : i < layer_speeds.length := by
    simpa [layer_speeds] using hi
  rw [List.getD_eq_getElem _ _ hlen]
  simp [layer_speeds]

theorem layer_radius_eq (st : VisState) (i : ℕ) :
    layer_radius st i =
      MAX_RADIUS * (1 - (i : ℝ) / NUM_LAYERS) *
        (1 + Real.sin (st.time_offset * 3 + (i : ℝ) * 0.5) * 0.2) := rfl

theorem layer_radius_ge_eight (st : VisState) (i : ℕ) (hi : i < NUM_LAYERS) :
    8 ≤ layer_radius st i := by
  have hs1 := Real.neg_one_le_sin (st.time_offset * 3 + (i : ℝ) * 0.5)
  have hs2 := Real.sin_le_one (st.time_offset * 3 + (i : ℝ) * 0.5)
  have hi29 : (i : ℝ) ≤ 29 := by
    have h : i ≤ 29 := by
      have : i < 30 := by simpa [NUM_LAYERS] using hi
      omega
    exact_mod_cast h
  rw [layer_radius_eq]
  have h1 : (10 : ℝ) ≤ MAX_RADIUS * (1 - (i : ℝ) / NUM_LAYERS) := by
    unfold MAX_RADIUS NUM_LAYERS
    push_cast
    linarith
  have h2 : (0.8 : ℝ) ≤ 1 + Real.sin (st.time_offset * 3 + (i : ℝ) * 0.5) * 0.2 := by
    linarith
  calc (8 : ℝ) = 10 * 0.8 := by norm_num
    _ ≤ MAX_RADIUS * (1 - (i : ℝ) / NUM_LAYERS) *
          (1 + Real.sin (st.time_offset * 3 + (i : ℝ) * 0.5) * 0.2) :=
        mul_le_mul h1 h2 (by norm_num) (by linarith)

theorem draw_skip (st : VisState) (i : ℕ) (h : layer_radius st i < 2) :
    draw_wormhole_layer st i = (st, []) := by
  unfold draw_wormhole_layer
  rw [if_pos h]

theorem draw_fst_no_skip (st : VisState) (i : ℕ) (h : ¬ layer_radius st i < 2) :
    (draw_wormhole_layer st i).1 =
      { st with layer_rotations := fun k =>
          if k = i then st.layer_rotations i + layer_speeds.getD i 0
          else st.layer_rotations k } := by
  unfold draw_wormhole_layer
  rw [if_neg h]

theorem draw_snd_no_skip (st : VisState) (i : ℕ) (h : ¬ layer_radius st i < 2) :
    ∃ c, (draw_wormhole_layer st i).2 = [(i, c)] := by
  unfold draw_wormhole_layer
  rw [if_neg h]
  rcases hsh : shapes.getD st.current_shape ShapeType.circle with _ | _ | _ | _ | _ | _ <;>
    simp [hsh, get_shape_points, local_corners]

theorem draw_rot_other (st : VisState) (j k : ℕ) (hk : k ≠ j) :
    (draw_wormhole_layer st j).1.layer_rotations k = st.layer_rotations k := by
  by_cases h : layer_radius st j < 2
  · rw [draw_skip st j h]
  · rw [draw_fst_no_skip st j h]
    simp [hk]

theorem draw_layers_rot_not_mem (st : VisState) (L : List ℕ) (k : ℕ) (hk : k ∉ L) :
    (draw_layers st L).1.layer_rotations k = st.layer_rotations k := by
  induction L generalizing st with
  | nil => rfl
  | cons j rest ih =>
    simp only [List.mem_cons, not_or] at hk
    show (draw_layers (draw_wormhole_layer st j).1 rest).1.layer_rotations k = _
    rw [ih _ hk.2, draw_rot_other st j k hk.1]

theorem draw_layers_rot_mem (st : VisState) (L : List ℕ) (k : ℕ)
    (hmem : k ∈ L) (hnd : L.Nodup) (hk : k < NUM_LAYERS) :
    (draw_layers st L).1.layer_rotations k =
      st.layer_rotations k + layer_speeds.getD k 0 := by
  induction L generalizing st with
  | nil => cases hmem
  | cons j rest ih =>
    rw [List.nodup_cons] at hnd
    show (draw_layers (draw_wormhole_layer st j).1 rest).1.layer_rotations k = _
    rcases List.mem_cons.mp hmem with hkj | hmem2
    · subst hkj
      rw [draw_layers_rot_not_mem _ _ _ hnd.1]
      have h2 : ¬ layer_radius st k < 2 := by
        have := layer_radius_ge_eight st k hk
        linarith
      rw [draw_fst_no_skip st k h2]
      simp
    · have hkj : k ≠ j := by
        rintro rfl
        exact hnd.1 hmem2
      rw [ih _ hmem2 hnd.2, draw_rot_other st j k hkj]

theorem draw_layers_fst_map (st : VisState) (L : List ℕ)
    (hL : ∀ j ∈ L, j < NUM_LAYERS) :
    (draw_layers st L).2.map Prod.fst = L := by
  induction L generalizing st with
  | nil => rfl
  | cons j rest ih =>
    have hj : j < NUM_LAYERS := hL j (List.mem_cons_self j rest)
    have h2 : ¬ layer_radius st j < 2 := by
      have := layer_radius_ge_eight st j hj
      linarith
    obtain ⟨c, hc⟩ := draw_snd_no_skip st j h2
    show ((draw_wormhole_layer st j).2 ++
        (draw_layers (draw_wormhole_layer st j).1 rest).2).map Prod.fst = j :: rest
    rw [List.map_append, hc, ih _ (fun m hm => hL m (List.mem_cons_of_mem j hm))]
    rfl

/-! ## Claims -/

/-- C1: in every frame, the renderer draws the layers in strictly descending
index order, enumerating layer indices from `NUM_LAYERS - 1 = 29` down to 0:
the indices tagged on the recorded draw calls of a frame are exactly
`[29, 28, ..., 0]`, which is strictly descending. -/
theorem claim_C1_descending_draw_order (st : VisState) :
    (step_frame st).2.map Prod.fst = (List.range NUM_LAYERS).reverse ∧
    List.Chain' (fun a b => b < a) ((step_frame st).2.map Prod.fst) := by
  have hmap : (step_frame st).2.map Prod.fst = (List.range NUM_LAYERS).reverse := by
    show (draw_layers _ frame_layer_order).2.map Prod.fst = _
    rw [draw_layers_fst_map]
    · rfl
    · intro j hj
      simpa [frame_layer_order] using hj
  refine ⟨hmap, ?_⟩
  rw [hmap, show NUM_LAYERS = 29 + 1 from rfl, List.chain'_reverse,
    List.chain'_range_succ]
  intro m _
  exact Nat.lt_succ_self m

/-- C3: for every layer index `i < 30` and every rendered frame,
`layer_rotations i` increases by exactly `layer_speeds[i] = i * 0.5` during
that frame (one accumulation per layer per frame; nothing resets it). -/
theorem claim_C3_rotation_accumulates (st : VisState) (i : ℕ)
    (hi : i < NUM_LAYERS) :
    (step_frame st).1.layer_rotations i =
      st.layer_rotations i + layer_speeds.getD i 0 ∧
    layer_speeds.getD i 0 = (i : ℝ) * 0.5 := by
  have hmem : i ∈ frame_layer_order := by
    simpa [frame_layer_order] using hi
  have hnd : frame_layer_order.Nodup := by
    simpa [frame_layer_order] using List.nodup_range NUM_LAYERS
  constructor
  · show (draw_layers _ frame_layer_order).1.layer_rotations i = _
    rw [draw_layers_rot_mem _ frame_layer_order i hmem hnd hi]
  · exact layer_speeds_getD i hi

theorem pymod_one (x : ℝ) : pymod x 1 = Int.fract x := by
  unfold pymod Int.fract
  rw [div_one, one_mul]

/-- C5: for every `base_hue` in `[0, 1)` and every `time_offset ≥ 0` and
`progress ≥ 0`, the computed hue `(base_hue + (progress * 0.3 +
time_offset * 0.1)) % 1.0` lies in `[0, 1)`. -/
theorem claim_C5_hue_in_unit_interval (base_hue time_offset progress : ℝ)
    (h1 : 0 ≤ base_hue) (h2 : base_hue < 1) (h3 : 0 ≤ time_offset)
    (h4 : 0 ≤ progress) :
    0 ≤ hue_at base_hue time_offset progress ∧
    hue_at base_hue time_offset progress < 1 := by
  have heq : hue_at base_hue time_offset progress =
      Int.fract (base_hue + (progress * 0.3 + time_offset * 0.1)) := by
    show pymod (base_hue + (progress * 0.3 + time_offset * 0.1)) 1 = _
    exact pymod_one _
  rw [heq]
  exact ⟨Int.fract_nonneg _, Int.fract_lt_one _⟩

theorem claim_C5_witness :
    ((0 : ℝ) ≤ 0 ∧ (0 : ℝ) < 1 ∧ (0 : ℝ) ≤ 0 ∧ (0 : ℝ) ≤ 0) ∧
    (0 ≤ hue_at 0 0 0 ∧ hue_at 0 0 0 < 1) :=
  ⟨⟨le_refl 0, by norm_num, le_refl 0, le_refl 0⟩,
    claim_C5_hue_in_unit_interval 0 0 0 (le_refl 0) (by norm_num)
      (le_refl 0) (le_refl 0)⟩

theorem radians_360 : radians 360 = 2 * Real.pi := by
  unfold radians
  ring

theorem radians_zero : radians 0 = 0 := by
  unfold radians
  ring

/-- C6: for every shape kind, center, and radius greater than 0, the
geometry generator applied with rotation angle 360 degrees returns exactly
the points it returns with rotation angle 0 (exact equality in the real
model). -/
theorem claim_C6_full_turn_identity (shape : ShapeType) (cx cy radius : ℝ)
    (h : 0 < radius) :
    get_shape_points shape cx cy radius 360 =
      get_shape_points shape cx cy radius 0 := by
  have hc360 : Real.cos (radians 360) = 1 := by rw [radians_360, Real.cos_two_pi]
  have hs360 : Real.sin (radians 360) = 0 := by rw [radians_360, Real.sin_two_pi]
  have hc0 : Real.cos (radians 0) = 1 := by rw [radians_zero, Real.cos_zero]
  have hs0 : Real.sin (radians 0) = 0 := by rw [radians_zero, Real.sin_zero]
  unfold get_shape_points
  simp only [hc360, hs360, hc0, hs0]

theorem claim_C6_witness :
    (0 : ℝ) < 1 ∧
    get_shape_points ShapeType.square 0 0 1 360 =
      get_shape_points ShapeType.square 0 0 1 0 :=
  ⟨by norm_num, claim_C6_full_turn_identity ShapeType.square 0 0 1 (by norm_num)⟩

/-- C8: the geometry generator for the square kind with radius 10,
rotation 0, and center `(0, 0)` yields exactly the 4 points `(±7, ±7)`, in
the source's winding order. -/
theorem claim_C8_square_radius_ten :
    get_shape_points ShapeType.square 0 0 10 0 =
      some [(-7, -7), (7, -7), (7, 7), (-7, 7)] := by
  have hc0 : Real.cos (radians 0) = 1 := by rw [radians_zero, Real.cos_zero]
  have hs0 : Real.sin (radians 0) = 0 := by rw [radians_zero, Real.sin_zero]
  simp only [get_shape_points, local_corners, Option.map_some', List.map_cons,
    List.map_nil, hc0, hs0]
  norm_num

/-- C10: a next-shape trigger sets `current_shape` to
`(current_shape + 1) % 6`, which always lies in `[0, 6)`, and the three
color-preset triggers set `base_hue` to exactly `0.0`, `0.33`, `0.66`; these
events are pure assignments with no other derived computation (the other
fields involved are untouched). -/
theorem claim_C10_event_updates (st : VisState) :
    (apply_event st InputEvent.key_space).current_shape =
      (st.current_shape + 1) % 6 ∧
    (apply_event st InputEvent.key_space).current_shape < 6 ∧
    (apply_event st InputEvent.key_r).base_hue = 0.0 ∧
    (apply_event st InputEvent.key_g).base_hue = 0.33 ∧
    (apply_event st InputEvent.key_b).base_hue = 0.66 ∧
    (apply_event st InputEvent.key_r).current_shape = st.current_shape ∧
    (apply_event st InputEvent.key_g).current_shape = st.current_shape ∧
    (apply_event st InputEvent.key_b).current_shape = st.current_shape ∧
    (apply_event st InputEvent.key_space).base_hue = st.base_hue := by
  refine ⟨rfl, ?_, rfl, rfl, rfl, rfl, rfl, rfl, rfl⟩
  show (st.current_shape + 1) % 6 < 6
  exact Nat.mod_lt _ (by norm_num)

theorem sqrt3_gt : (1.732 : ℝ) < Real.sqrt 3 := by
  have h : (1.732 : ℝ) = Real.sqrt (1.732 ^ 2) := (Real.sqrt_sq (by norm_num)).symm
  rw [h]
  exact Real.sqrt_lt_sqrt (by norm_num) (by norm_num)

theorem sqrt3_lt : Real.sqrt 3 < 1.733 := by
  have h : (1.733 : ℝ) = Real.sqrt (1.733 ^ 2) := (Real.sqrt_sq (by norm_num)).symm
  rw [h]
  exact Real.sqrt_lt_sqrt (by norm_num) (by norm_num)

/-- C9: the geometry generator for the triangle kind with radius 10,
rotation 0, and center `(0, 0)` yields the 3 points `(10, 0)`,
`(-5, 8.66)`, `(-5, -8.66)` within a floating tolerance of `0.01`. -/
theorem claim_C9_triangle_radius_ten :
    ∃ p1 p2 : ℝ × ℝ,
      get_shape_points ShapeType.triangle 0 0 10 0 = some [(10, 0), p1, p2] ∧
      p1.1 = -5 ∧ |p1.2 - 8.66| < 0.01 ∧ p2.1 = -5 ∧ |p2.2 + 8.66| < 0.01 := by
  have hc0 : Real.cos (radians 0) = 1 := by rw [radians_zero, Real.cos_zero]
  have hs0 : Real.sin (radians 0) = 0 := by rw [radians_zero, Real.sin_zero]
  have h120 : radians 120 = Real.pi - Real.pi / 3 := by unfold radians; ring
  have hc120 : Real.cos (radians 120) = -(1 / 2) := by
    rw [h120, Real.cos_pi_sub, Real.cos_pi_div_three]
  have hs120 : Real.sin (radians 120) = Real.sqrt 3 / 2 := by
    rw [h120, Real.sin_pi_sub, Real.sin_pi_div_three]
  have h240 : radians 240 = Real.pi + Real.pi / 3 := by unfold radians; ring
  have hc240 : Real.cos (radians 240) = -(1 / 2) := by
    rw [h240, Real.cos_add, Real.cos_pi, Real.sin_pi, Real.cos_pi_div_three]
    ring
  have hs240 : Real.sin (radians 240) = -(Real.sqrt 3 / 2) := by
    rw [h240, Real.sin_add, Real.cos_pi, Real.sin_pi, Real.sin_pi_div_three]
    ring
  have hpts : get_shape_points ShapeType.triangle 0 0 10 0 =
      some [(10, 0), (-5, 5 * Real.sqrt 3), (-5, -(5 * Real.sqrt 3))] := by
    simp only [get_shape_points, local_corners, Option.map_some', List.map_cons,
      List.map_nil, hc0, hs0, hc120, hs120, hc240, hs240]
    norm_num
    ring
  refine ⟨(-5, 5 * Real.sqrt 3), (-5, -(5 * Real.sqrt 3)), hpts, rfl, ?_, rfl, ?_⟩
  · have h1 := sqrt3_gt
    have h2 := sqrt3_lt
    rw [abs_lt]
    constructor <;> nlinarith
  · have h1 := sqrt3_gt
    have h2 := sqrt3_lt
    rw [abs_lt]
    constructor <;> nlinarith

theorem rotate_point_dist (cx cy r a b : ℝ) (hr : 0 ≤ r) :
    Real.sqrt
      ((cx + (r * Real.cos a * Real.cos b - r * Real.sin a * Real.sin b) - cx) ^ 2 +
       (cy + (r * Real.cos a * Real.sin b + r * Real.sin a * Real.cos b) - cy) ^ 2) = r := by
  have harg :
      (cx + (r * Real.cos a * Real.cos b - r * Real.sin a * Real.sin b) - cx) ^ 2 +
      (cy + (r * Real.cos a * Real.sin b + r * Real.sin a * Real.cos b) - cy) ^ 2 =
      r ^ 2 * ((Real.sin a ^ 2 + Real.cos a ^ 2) * (Real.sin b ^ 2 + Real.cos b ^ 2)) := by
    ring
  rw [harg, Real.sin_sq_add_cos_sq, Real.sin_sq_add_cos_sq, one_mul, mul_one,
    Real.sqrt_sq hr]

/-- C7: for every center, radius `R > 0`, and rotation angle, the star
generator returns exactly 10 points; the `k`-th point is the local corner at
angle `36 * k` degrees (alternating distance), rotated by the rotation
angle, so its distance from the center is `R` at even `k` and `0.5 * R` at
odd `k`. -/
theorem claim_C7_star_geometry (cx cy radius rotation : ℝ) (h : 0 < radius) :
    ∃ pts : List (ℝ × ℝ),
      get_shape_points ShapeType.star cx cy radius rotation = some pts ∧
      pts.length = 10 ∧
      ∀ k, k < 10 →
        pts.getD k (0, 0) =
          (cx + (if k % 2 = 0 then radius else 0.5 * radius) *
              Real.cos (radians ((k : ℝ) * 36) + radians rotation),
           cy + (if k % 2 = 0 then radius else 0.5 * radius) *
              Real.sin (radians ((k : ℝ) * 36) + radians rotation)) ∧
        Real.sqrt (((pts.getD k (0, 0)).1 - cx) ^ 2 +
            ((pts.getD k (0, 0)).2 - cy) ^ 2) =
          (if k % 2 = 0 then radius else 0.5 * radius) := by
  refine ⟨_, rfl, by simp, ?_⟩
  intro k hk
  have hlen : k <
      (((List.range 10).map (fun (i : ℕ) =>
        let r := if i % 2 = 0 then radius else radius * 0.5
        (r * Real.cos (radians ((i : ℝ) * 36)),
         r * Real.sin (radians ((i : ℝ) * 36))))).map (fun c =>
          (cx + (c.1 * Real.cos (radians rotation) - c.2 * Real.sin (radians rotation)),
           cy + (c.1 * Real.sin (radians rotation) + c.2 * Real.cos (radians rotation))))).length := by
    simpa using hk
  rw [List.getD_eq_getElem _ _ hlen]
  simp only [List.getElem_map, List.getElem_range]
  by_cases hk2 : k % 2 = 0
  · simp only [if_pos hk2]
    refine ⟨?_, ?_⟩
    · rw [Real.cos_add, Real.sin_add]
      simp only [Prod.mk.injEq]
      constructor <;> ring
    · exact rotate_point_dist cx cy radius _ _ (le_of_lt h)
  · simp only [if_neg hk2]
    refine ⟨?_, ?_⟩
    · rw [Real.cos_add, Real.sin_add]
      simp only [Prod.mk.injEq]
      constructor <;> ring
    · rw [show (0.5 : ℝ) * radius = radius * 0.5 from by ring]
      exact rotate_point_dist cx cy (radius * 0.5) _ _ (by linarith)

theorem claim_C7_witness :
    (0 : ℝ) < 1 ∧
    (∃ pts : List (ℝ × ℝ),
      get_shape_points ShapeType.star 0 0 1 0 = some pts ∧
      pts.length = 10 ∧
      ∀ k, k < 10 →
        pts.getD k (0, 0) =
          (0 + (if k % 2 = 0 then (1 : ℝ) else 0.5 * 1) *
              Real.cos (radians ((k : ℝ) * 36) + radians 0),
           0 + (if k % 2 = 0 then (1 : ℝ) else 0.5 * 1) *
              Real.sin (radians ((k : ℝ) * 36) + radians 0)) ∧
        Real.sqrt (((pts.getD k (0, 0)).1 - 0) ^ 2 +
            ((pts.getD k (0, 0)).2 - 0) ^ 2) =
          (if k % 2 = 0 then (1 : ℝ) else 0.5 * 1)) :=
  ⟨by norm_num, claim_C7_star_geometry 0 0 1 0 (by norm_num)⟩

theorem claim_C3_witness :
    0 < NUM_LAYERS ∧
    ((step_frame init_state).1.layer_rotations 0 =
       init_state.layer_rotations 0 + layer_speeds.getD 0 0 ∧
     layer_speeds.getD 0 0 = ((0 : ℕ) : ℝ) * 0.5) :=
  ⟨by decide, claim_C3_rotation_accumulates init_state 0 (by decide)⟩

/-- C2: for every layer index and every state in which the computed radius
for that layer is below 2, drawing the layer emits zero draw calls and
mutates no state; in particular `layer_rotations` at that index is left
unchanged.  (Proved for all indices, which covers the claimed range
`[0, 30)`; by `claim_C4_no_skip_all_layers` the radius hypothesis is never
satisfied for an index below 30, so the witness instantiates the theorem at
index 30, where the computed radius is 0.) -/
theorem claim_C2_skip_small_radius (st : VisState) (i : ℕ)
    (h : layer_radius st i < 2) :
    draw_wormhole_layer st i = (st, []) ∧
    (draw_wormhole_layer st i).2 = [] ∧
    (draw_wormhole_layer st i).1.layer_rotations i = st.layer_rotations i := by
  have heq := draw_skip st i h
  exact ⟨heq, by rw [heq], by rw [heq]⟩

theorem claim_C2_witness :
    layer_radius init_state 30 < 2 ∧
    (draw_wormhole_layer init_state 30 = (init_state, []) ∧
     (draw_wormhole_layer init_state 30).2 = [] ∧
     (draw_wormhole_layer init_state 30).1.layer_rotations 30 =
       init_state.layer_rotations 30) := by
  have h : layer_radius init_state 30 < 2 := by
    rw [layer_radius_eq]
    norm_num [NUM_LAYERS, MAX_RADIUS]
  exact ⟨h, claim_C2_skip_small_radius init_state 30 h⟩

/-- C4: for every layer index `i < 30` and every state (any `time_offset`),
the computed radius is at least 8, hence never below 2, so the small-radius
skip branch is unreachable and the layer emits exactly one draw call. -/
theorem claim_C4_no_skip_all_layers (st : VisState) (i : ℕ)
    (hi : i < NUM_LAYERS) :
    8 ≤ layer_radius st i ∧ ¬ layer_radius st i < 2 ∧
    ∃ c, (draw_wormhole_layer st i).2 = [(i, c)] := by
  have h8 := layer_radius_ge_eight st i hi
  have h2 : ¬ layer_radius st i < 2 := by linarith
  exact ⟨h8, h2, draw_snd_no_skip st i h2⟩

theorem claim_C4_witness :
    0 < NUM_LAYERS ∧
    (8 ≤ layer_radius init_state 0 ∧ ¬ layer_radius init_state 0 < 2 ∧
     ∃ c, (draw_wormhole_layer init_state 0).2 = [(0, c)]) :=
  ⟨by decide, claim_C4_no_skip_all_layers init_state 0 (by decide)⟩

end

end Wormhole
